import Mathlib

/-!
# Verification of the Google Places search component

A shallow embedding of `google_places_api_search.py` (class `GooglePlacesSearch`).

Modelling conventions:
* Python dictionaries coming from JSON are embedded as structures with
  `Option`-valued fields; `none` stands for an absent key (`dict.get`).
* Machine floats (ratings, coordinates) are embedded as exact rationals:
  all operations performed on them by the program are order comparisons
  against decimal constants, which agree with the float comparisons on the
  values involved.
* The HTTP layer (`requests`) is an external collaborator; it is embedded
  as an environment of oracles giving the outcome of each request.  An
  outcome is either a raised exception (carrying the Python message
  `str(e)`) or a response with a status code and a body.
* `re.findall` for the e-mail pattern
  `\b[a-zA-Z0-9._%+-]+@[a-zA-Z0-9.-]+\.[a-zA-Z]{2,}\b`
  is implemented directly (`findallEmails`): leftmost scanning,
  greedy quantifiers with backtracking, non-overlapping continuation.
  The pattern's character classes are ASCII, so every match is an ASCII
  string; the `\b` test uses ASCII word characters, which agrees with
  Python's Unicode-aware `\b` on ASCII text (on page text with non-ASCII
  word characters next to a candidate match the two can pick different
  boundary positions, which moves match starts but never produces a string
  outside the pattern's shape — no property proved here depends on which
  positions match).
-/

namespace GPlaces

/-- ASCII word character — `\w` as it applies to the ASCII text the pattern matches. -/
def isWordChar (c : Char) : Bool := c.isAlphanum || c == '_'

/-- Character class `[a-zA-Z0-9._%+-]` — the local part of the e-mail pattern. -/
def isLocalChar (c : Char) : Bool :=
  c.isAlphanum || c == '.' || c == '_' || c == '%' || c == '+' || c == '-'

/-- Character class `[a-zA-Z0-9.-]` — the domain part of the e-mail pattern. -/
def isDomChar (c : Char) : Bool := c.isAlphanum || c == '.' || c == '-'

/-- `\b` between an optional previous character and the next character:
the two sides differ in word-character status (the edge counts as non-word). -/
def boundaryOk : Option Char → Char → Bool
  | none, c => isWordChar c
  | some p, c => isWordChar p != isWordChar c

/-- Given the maximal domain-class run `D` after the `@` and the remainder
`rest3` of the text after `D`, decide whether placing the mandatory dot at
index `k` of `D` lets `\.[a-zA-Z]{2,}\b` match: the greedy alphabetic run
after the dot must have length at least two and be followed by a non-word
character or the end of the text. -/
def tldOk (D rest3 : List Char) (k : Nat) : Bool :=
  let A := (D.drop (k+1)).takeWhile Char.isAlpha
  decide (2 ≤ A.length) &&
    (match (D.drop (k+1)).drop A.length with
     | c :: _ => !isWordChar c
     | [] =>
       match rest3 with
       | c :: _ => !isWordChar c
       | [] => true)

/-- Backtracking search for the dot position: `[a-zA-Z0-9.-]+` is greedy, so
the regex engine tries the longest domain run first, i.e. the largest dot
index.  `findK D rest3 n` tries indices `n, n-1, …, 1`. -/
def findK (D rest3 : List Char) : Nat → Option Nat
  | 0 => none
  | k+1 =>
    if D[k+1]? == some '.' && tldOk D rest3 (k+1) then some (k+1)
    else findK D rest3 k

/-- Match the part of the pattern after the `@`, given the local part `L`
and the text `rest2` after the `@`. -/
def emailAtCore (L rest2 : List Char) : Option (List Char × List Char) :=
  let D := rest2.takeWhile isDomChar
  let rest3 := rest2.drop D.length
  match findK D rest3 (D.length - 1) with
  | none => none
  | some k =>
    let A := (D.drop (k+1)).takeWhile Char.isAlpha
    some (L ++ '@' :: D.take (k + 1 + A.length), rest2.drop (k + 1 + A.length))

/-- Attempt to match the e-mail pattern at the head of `s` (the `\b` before it
has already been checked by the caller).  Returns the matched characters and
the remaining text.  `[a-zA-Z0-9._%+-]+` is greedy and nothing after it can
consume a local-class character, so the local part is exactly the maximal
local-class run, which must be followed by `@`. -/
def emailAt (s : List Char) : Option (List Char × List Char) :=
  let L := s.takeWhile isLocalChar
  let rest := s.drop L.length
  if L.isEmpty then none
  else if rest.head? = some '@' then emailAtCore L rest.tail
  else none

/-- The scanning loop of `re.findall`: try each position left to right,
continue after the end of a match (matches do not overlap).  `prev` is the
character before the current position, for the `\b` test.  The fuel is an
upper bound on the number of steps; each step consumes at least one
character, so `s.length` suffices. -/
def scanEmails : Option Char → List Char → Nat → List (List Char)
  | _, _, 0 => []
  | _, [], _ + 1 => []
  | prev, c :: rest, fuel + 1 =>
    if boundaryOk prev c then
      match emailAt (c :: rest) with
      | some (m, remaining) => m :: scanEmails m.getLast? remaining fuel
      | none => scanEmails (some c) rest fuel
    else scanEmails (some c) rest fuel

/-- `re.findall(r"\b[a-zA-Z0-9._%+-]+@[a-zA-Z0-9.-]+\.[a-zA-Z]{2,}\b", text)`. -/
def findallEmails (text : String) : List String :=
  (scanEmails none text.data text.data.length).map String.mk

/-- A string fully matches the character-class structure of the e-mail
pattern: a non-empty local-class run, `@`, a non-empty domain-class run, a
dot, and at least two letters.  (The `\b` anchors of the pattern constrain
the surrounding text, not the matched substring itself.) -/
def domShape (R : List Char) : Bool :=
  let T := R.reverse.takeWhile Char.isAlpha
  decide (2 ≤ T.length) &&
    (match R.reverse.drop T.length with
     | c :: Drev => c == '.' && !Drev.isEmpty && Drev.all isDomChar
     | [] => false)

def emailShape (l : List Char) : Bool :=
  let L := l.takeWhile isLocalChar
  !L.isEmpty &&
    (match l.drop L.length with
     | c :: R => c == '@' && domShape R
     | [] => false)

def isEmailMatch (s : String) : Bool := emailShape s.data

/-- The denylisted substrings of line 111 of the source. -/
def emailDenylist : List String :=
  ["example", ".png", ".jpg", ".jpeg", ".svg", ".css", ".js"]

/-- `needle` occurs at the head of the haystack. -/
def subAt : List Char → List Char → Bool
  | [], _ => true
  | _ :: _, [] => false
  | a :: as, b :: bs => a == b && subAt as bs

/-- Python's `needle in hay` substring test. -/
def containsSub (needle : List Char) : List Char → Bool
  | [] => needle.isEmpty
  | c :: rest => subAt needle (c :: rest) || containsSub needle rest

/-- `any(invalid in email.lower() for invalid in [...])` — lines 109–112.
Python's `str.lower()` lowercases character by character; on the ASCII
strings the e-mail pattern produces this is `Char.toLower` on each
character. -/
def denylisted (e : String) : Bool :=
  emailDenylist.any fun d => containsSub d.data (e.data.map Char.toLower)

/-- Python slice `l[:k]`: a non-negative bound keeps the first `k` elements,
a negative bound drops the last `|k|` elements. -/
def pyTake {α : Type} (k : Int) (l : List α) : List α :=
  if 0 ≤ k then l.take k.toNat else l.take (l.length - (-k).toNat)

/-- Python's `<=` on strings: lexicographic comparison of code points,
with a proper initial segment smaller. -/
def lexLe : List Char → List Char → Bool
  | [], _ => true
  | _ :: _, [] => false
  | a :: as, b :: bs =>
    if a.toNat < b.toNat then true
    else if b.toNat < a.toNat then false
    else lexLe as bs

theorem lexLe_total : ∀ a b : List Char, lexLe a b = true ∨ lexLe b a = true
  | [], _ => .inl rfl
  | _ :: _, [] => .inr rfl
  | a :: as, b :: bs => by
    by_cases h1 : a.toNat < b.toNat
    · left
      simp [lexLe, h1]
    · by_cases h2 : b.toNat < a.toNat
      · right
        simp [lexLe, h2]
      · rcases lexLe_total as bs with h | h
        · left
          simp [lexLe, h1, h2, h]
        · right
          simp [lexLe, h1, h2, h]

theorem lexLe_trans :
    ∀ a b c : List Char, lexLe a b = true → lexLe b c = true → lexLe a c = true
  | [], _, _, _, _ => rfl
  | _ :: _, [], _, h, _ => by simp [lexLe] at h
  | _ :: _, _ :: _, [], _, h => by simp [lexLe] at h
  | a :: as, b :: bs, c :: cs, h1, h2 => by
    simp only [lexLe] at h1 h2 ⊢
    split_ifs at h1 h2 ⊢ with hab hba hbc hcb hac hca <;>
      first
        | rfl
        | omega
        | exact lexLe_trans as bs cs h1 h2

/-- The order `sorted(...)` sorts by, as a relation on strings. -/
def strLe (a b : String) : Prop := lexLe a.data b.data = true

instance : DecidableRel strLe := fun a b =>
  inferInstanceAs (Decidable (lexLe a.data b.data = true))

instance : IsTotal String strLe := ⟨fun a b => lexLe_total a.data b.data⟩

instance : IsTrans String strLe := ⟨fun a b c => lexLe_trans a.data b.data c.data⟩

/-- Lines 104–114: find the raw matches, de-duplicate them (`set(...)` — the
set's iteration order is unspecified, but the elements are distinct and
immediately sorted by a total, transitive and antisymmetric order, so the
result does not depend on it), drop denylisted ones, sort ascending,
truncate with `[: self.max_emails]`. -/
def validEmailList (maxEmails : Int) (text : String) : List String :=
  let raw := findallEmails text
  let valid := raw.dedup.filter fun e => !denylisted e
  pyTake maxEmails (List.insertionSort strLe valid)

/-! ## Data model: the JSON records the program reads -/

/-- One element of a place's `photos` array. -/
structure PhotoRec where
  photo_reference : Option String
  deriving DecidableEq

/-- The `opening_hours` object inside a text-search place record. -/
structure OpenNowRec where
  open_now : Option Bool
  deriving DecidableEq

structure LocRec where
  lat : Option ℚ
  lng : Option ℚ
  deriving DecidableEq

structure GeomRec where
  location : Option LocRec
  deriving DecidableEq

structure PlusCodeRec where
  global_code : Option String
  deriving DecidableEq

/-- A raw place record of the text-search response (`results[i]`). -/
structure PlaceRec where
  name : Option String
  formatted_address : Option String
  vicinity : Option String
  rating : Option ℚ
  user_ratings_total : Option Int
  price_level : Option Int
  business_status : Option String
  opening_hours : Option OpenNowRec
  types : List String
  geometry : Option GeomRec
  photos : Option (List PhotoRec)
  place_id : Option String
  icon : Option String
  plus_code : Option PlusCodeRec
  deriving DecidableEq

/-- The `opening_hours` object of a details response. -/
structure WeekdayRec where
  weekday_text : Option (List String)
  deriving DecidableEq

/-- The `result` object of a details response. -/
structure DetailRec where
  formatted_phone_number : Option String
  international_phone_number : Option String
  website : Option String
  opening_hours : Option WeekdayRec
  deriving DecidableEq

/-- The empty dictionary `{}` returned by `get_place_details` on failure. -/
def emptyDetail : DetailRec :=
  { formatted_phone_number := none, international_phone_number := none
    website := none, opening_hours := none }

/-! ## The HTTP layer as an environment of oracles -/

/-- Outcome of the details-endpoint pipeline body after a successful
`requests.get`: either `resp.json()` raises (malformed body) or it parses,
with the `result` key optional. -/
inductive DetBody where
  | malformed (msg : String)
  | json (result : Option DetailRec)

/-- Outcome of one details request: `requests.get` raises, or a response
with a status code and body arrives. -/
inductive DetOutcome where
  | raise (msg : String)
  | resp (status : Nat) (body : DetBody)

/-- Outcome of the website fetch done by the e-mail scraper. -/
inductive ScrapeOutcome where
  | raise (msg : String)
  | resp (status : Nat) (text : String)

/-- Outcome of one text-search request: the `requests.get` /
`raise_for_status` / `.json()` pipeline raises with message `msg`, or it
yields the parsed `results` list and the optional `next_page_token`. -/
inductive TSOutcome where
  | fail (msg : String)
  | ok (results : List PlaceRec) (next_page_token : Option String)
  deriving DecidableEq

/-- The parameter dictionary sent to the text-search endpoint: either the
initial `{"query": q, "key": k}` or the follow-up
`{"pagetoken": t, "key": k}` of line 194. -/
inductive TSReq where
  | initial (query : String) (key : String)
  | page (token : String) (key : String)
  deriving DecidableEq

/-- The next-page token of an outcome when it is present and truthy — line
190 breaks on `not next_page_token`, so an empty-string token ends the
pagination just like an absent one. -/
def liveToken : TSOutcome → Option String
  | .fail _ => none
  | .ok _ none => none
  | .ok _ (some t) => if t = "" then none else some t

/-- The upstream world: the outcome of the `i`-th text-search request with
its parameters, of a details request for a given `place_id`, and of a
website fetch for a given URL. -/
structure Env where
  ts : Nat → TSReq → TSOutcome
  det : Option String → DetOutcome
  scrape : String → ScrapeOutcome

/-- The component's configuration inputs. -/
structure Config where
  query : String
  max_results : Int
  min_rating : ℚ
  max_price_level : Int
  scrape_emails : Bool
  max_emails : Int
  api_key : String
  deriving DecidableEq

/-- Line 127: `max_fetch = min(self.max_results or 20, 60)` — a falsy
(zero / absent) `max_results` is replaced by the default 20. -/
def max_fetch (cfg : Config) : Int :=
  min (if cfg.max_results = 0 then 20 else cfg.max_results) 60

/-! ## The three request-performing functions -/

/-- How Python prints `place_id` into the f-string of line 94 (`None` when
the key was absent). -/
def pidStr : Option String → String
  | some s => s
  | none => "None"

/-- The diagnostic line `f"Error fetching details for {place_id}: {repr(e)}"`;
`msg` models `repr(e)`. -/
def detLogLine (pid : Option String) (msg : String) : String :=
  "Error fetching details for " ++ pidStr pid ++ ": " ++ msg

/-- Lines 81–95.  `resp.raise_for_status()` raises exactly for the client-
and server-error status codes `400 ≤ status < 600`; on any raised exception
the function logs and returns `{}`, otherwise it returns
`resp.json().get("result", {})`.  The second component is the list of log
lines emitted. -/
def get_place_details (env : Env) (pid : Option String) : DetailRec × List String :=
  match env.det pid with
  | .raise m => (emptyDetail, [detLogLine pid m])
  | .resp status body =>
    if 400 ≤ status ∧ status < 600 then
      (emptyDetail, [detLogLine pid ("HTTPError " ++ toString status)])
    else
      match body with
      | .malformed m => (emptyDetail, [detLogLine pid m])
      | .json r => (r.getD emptyDetail, [])

/-- Lines 97–118: fetch the website; on an exception or a non-200 status or
an empty body return `None`, otherwise run the e-mail pipeline and return
the joined string, or `None` when the truncated list is empty. -/
def extract_valid_emails_from_website (env : Env) (cfg : Config) (url : String) :
    Option String :=
  match env.scrape url with
  | .raise _ => none
  | .resp status text =>
    if status ≠ 200 ∨ text = "" then none
    else
      let valid_emails := validEmailList cfg.max_emails text
      if valid_emails = [] then none
      else some (String.intercalate ", " valid_emails)

/-! ## The per-place row mapping -/

/-- One row of the output table — the dictionary literal of lines 153–184. -/
structure Row where
  name : Option String
  address : Option String
  vicinity : Option String
  rating : ℚ
  user_ratings_total : Option Int
  price_level : Int
  business_status : Option String
  open_now : Option Bool
  opening_hours_weekly : String
  types : String
  latitude : Option ℚ
  longitude : Option ℚ
  photo_reference : Option String
  place_id : Option String
  icon : Option String
  plus_code : Option String
  phone_number : Option String
  website : Option String
  emails : Option String
  deriving DecidableEq

/-- Python's `x or y` on two `.get` results whose values are strings:
`x` when it is present and non-empty, otherwise `y`. -/
def pyOrStr : Option String → Option String → Option String
  | some s, y => if s = "" then y else some s
  | none, y => y

/-- `place.get("photos", [{}])[0].get("photo_reference")` — lines 173–175.
An absent `photos` key yields the default `[{}]` whose first element has no
`photo_reference`; a present but empty list makes the indexing `[0]` raise
`IndexError("list index out of range")`. -/
def photoRef0 : Option (List PhotoRec) → Except String (Option String)
  | none => .ok none
  | some [] => .error "list index out of range"
  | some (ph :: _) => .ok ph.photo_reference

/-- `"; ".join(details.get("opening_hours", {}).get("weekday_text", []))`. -/
def weeklyText (details : DetailRec) : String :=
  String.intercalate "; "
    (match details.opening_hours with
     | none => []
     | some h => h.weekday_text.getD [])

/-- The dictionary literal appended at lines 153–184, with the already
computed `rating`, `price_level`, `place_id`, `details`, `website` and
`email` values in scope.  The only field access that can raise is the
`photos` indexing. -/
def buildRow (place : PlaceRec) (rating : ℚ) (price_level : Int)
    (place_id : Option String) (details : DetailRec)
    (website email : Option String) : Except String Row :=
  match photoRef0 place.photos with
  | .error m => .error m
  | .ok pr =>
    .ok
      { name := place.name
        address := place.formatted_address
        vicinity := place.vicinity
        rating := rating
        user_ratings_total := place.user_ratings_total
        price_level := price_level
        business_status := place.business_status
        open_now := (match place.opening_hours with
                     | none => none
                     | some oh => oh.open_now)
        opening_hours_weekly := weeklyText details
        types := String.intercalate ", " place.types
        latitude := (match place.geometry with
                     | none => none
                     | some g => match g.location with
                       | none => none
                       | some loc => loc.lat)
        longitude := (match place.geometry with
                      | none => none
                      | some g => match g.location with
                        | none => none
                        | some loc => loc.lng)
        photo_reference := pr
        place_id := place_id
        icon := place.icon
        plus_code := (match place.plus_code with
                      | none => none
                      | some pc => pc.global_code)
        phone_number := pyOrStr details.formatted_phone_number
                          details.international_phone_number
        website := website
        emails := email }

/-- Python truthiness of the `website` value (line 150). -/
def truthyStr : Option String → Bool
  | none => false
  | some s => !(s == "")

/-! ## The orchestration loop of `search_results` -/

/-- Lines 150–151: scrape only when the flag is set and the website value is
truthy. -/
def emailFor (cfg : Config) (env : Env) (website : Option String) : Option String :=
  if cfg.scrape_emails && truthyStr website then
    extract_valid_emails_from_website env cfg (website.getD "")
  else none

/-- Lines 145–184 for one accepted place: fetch the details, scrape, and
build the row. -/
def rowFor (cfg : Config) (env : Env) (place : PlaceRec) : Except String Row :=
  let details := (get_place_details env place.place_id).1
  buildRow place (place.rating.getD 0) (place.price_level.getD 0) place.place_id
    details details.website (emailFor cfg env details.website)

/-- The filter of lines 139–143 rejects the place. -/
def rejected (cfg : Config) (place : PlaceRec) : Prop :=
  place.rating.getD 0 < cfg.min_rating ∨ cfg.max_price_level < place.price_level.getD 0

instance (cfg : Config) (place : PlaceRec) : Decidable (rejected cfg place) :=
  inferInstanceAs (Decidable (_ ∨ _))

/-- The `for place in results:` body, lines 138–187: filter, fetch details,
optionally scrape, append the row, count, and break once the cap is
reached.  Returns the updated `(fetched, all_results)` pair, or the message
of an exception raised while building a row. -/
def processPlaces (cfg : Config) (env : Env) :
    List PlaceRec → Nat → List Row → Except String (Nat × List Row)
  | [], fetched, acc => .ok (fetched, acc)
  | place :: rest, fetched, acc =>
    if rejected cfg place then
      processPlaces cfg env rest fetched acc
    else
      match rowFor cfg env place with
      | .error m => .error m
      | .ok row =>
        if max_fetch cfg ≤ ((fetched + 1 : Nat) : Int) then .ok (fetched + 1, acc ++ [row])
        else processPlaces cfg env rest (fetched + 1) (acc ++ [row])

/-- How one trip round the `while` loop ends. -/
inductive LoopRes where
  | done (rows : List Row)
  | raised (msg : String)
  | fuelOut

/-- One text-search request as it was actually issued: its parameters, its
outcome, and the duration of the `time.sleep` that immediately preceded it
(`none` for the initial request, `some 2` for every follow-up — line 193). -/
structure PageFetch where
  req : TSReq
  outcome : TSOutcome
  sleptBefore : Option Nat
  deriving DecidableEq

/-- The `while fetched < max_fetch:` loop of lines 129–194.  `i` numbers the
text-search calls, `slept` records the sleep just performed before the
pending request.  The fuel bounds the number of pages processed; a run that
exhausts it stands for a non-terminating execution (the upstream can feed
token-bearing pages of rejected places forever).  Returns the loop result
together with the list of page fetches issued from this point on. -/
def searchLoop (cfg : Config) (env : Env) :
    Nat → Nat → TSReq → Option Nat → Nat → List Row → LoopRes × List PageFetch
  | 0, _, _, _, _, _ => (.fuelOut, [])
  | fuel + 1, i, req, slept, fetched, acc =>
    if (fetched : Int) < max_fetch cfg then
      let outcome := env.ts i req
      let pf : PageFetch := ⟨req, outcome, slept⟩
      match outcome with
      | .fail m => (.raised m, [pf])
      | .ok results token =>
        if results = [] then (.done acc, [pf])
        else
          match processPlaces cfg env results fetched acc with
          | .error m => (.raised m, [pf])
          | .ok (fetched', acc') =>
            match token with
            | none => (.done acc', [pf])
            | some t =>
              if t = "" ∨ max_fetch cfg ≤ (fetched' : Int) then (.done acc', [pf])
              else
                let rec_result :=
                  searchLoop cfg env fuel (i + 1) (.page t cfg.api_key) (some 2)
                    fetched' acc'
                (rec_result.1, pf :: rec_result.2)
    else (.done acc, [])

/-- The value `search_results` hands back: a table of accepted rows, the
single-column one-row frames `{"message": [...]}` / `{"error": [...]}`, or
the marker for a run that never finishes. -/
inductive Frame where
  | table (rows : List Row)
  | message (msgs : List String)
  | error (msgs : List String)
  | diverged
  deriving DecidableEq

/-- The rows of the output table (empty for the message/error frames). -/
def tableRows : Frame → List Row
  | .table rows => rows
  | _ => []

/-- The number of rows of the emitted frame. -/
def frameRowCount : Frame → Nat
  | .table rows => rows.length
  | .message msgs => msgs.length
  | .error msgs => msgs.length
  | .diverged => 0

/-- Everything `search_results` leaves behind: the returned frame, the final
`self.status` (`none` when the attribute was not assigned), and the page
fetches issued. -/
structure RunResult where
  frame : Frame
  status : Option String
  fetches : List PageFetch
  deriving DecidableEq

/-- Lines 120–205.  The `try` block runs the paginated loop; a raised
exception is caught once at the top, producing the one-row error frame and
the `self.status = f"Error: {str(e)}"` assignment; an empty accumulation
produces the one-row "No results found." frame with the matching status. -/
def search_results (cfg : Config) (env : Env) (fuel : Nat) : RunResult :=
  let r := searchLoop cfg env fuel 0 (.initial cfg.query cfg.api_key) none 0 []
  match r.1 with
  | .raised m => ⟨.error [m], some ("Error: " ++ m), r.2⟩
  | .fuelOut => ⟨.diverged, none, r.2⟩
  | .done rows =>
    if rows = [] then ⟨.message ["No results found."], some "No results found.", r.2⟩
    else ⟨.table rows, none, r.2⟩

/-! ## Soundness of the scanner: every extracted match has the pattern's shape -/

theorem takeWhile_append_cons {α : Type} (p : α → Bool) {L : List α}
    (hL : ∀ c ∈ L, p c = true) {x : α} (hx : p x = false) (R : List α) :
    (L ++ x :: R).takeWhile p = L := by
  induction L with
  | nil => simp [List.takeWhile_cons, hx]
  | cons a l ih =>
    have ha : p a = true := hL a (by simp)
    simp [List.takeWhile_cons, ha, ih fun c hc => hL c (by simp [hc])]

theorem take_length_takeWhile {α : Type} (p : α → Bool) :
    ∀ l : List α, l.take (l.takeWhile p).length = l.takeWhile p
  | [] => rfl
  | a :: l => by
    by_cases h : p a
    · simp [List.takeWhile_cons, h, take_length_takeWhile p l]
    · simp [List.takeWhile_cons, h]

theorem findK_eq_some {D rest3 : List Char} :
    ∀ {n k : Nat}, findK D rest3 n = some k →
      1 ≤ k ∧ D[k]? = some '.' ∧ tldOk D rest3 k = true
  | 0, k => by simp [findK]
  | n + 1, k => by
    rw [findK]
    split_ifs with hc
    · intro h
      obtain rfl : n + 1 = k := by simpa using h
      rw [Bool.and_eq_true] at hc
      exact ⟨Nat.succ_le_succ (Nat.zero_le n), by simpa using hc.1, hc.2⟩
    · exact findK_eq_some

theorem emailAtCore_shape {L rest2 m r : List Char} (hL : ¬L.isEmpty = true)
    (hloc : ∀ c ∈ L, isLocalChar c = true)
    (h : emailAtCore L rest2 = some (m, r)) : emailShape m = true := by
  simp only [emailAtCore] at h
  rcases hk : findK (rest2.takeWhile isDomChar)
      (rest2.drop (rest2.takeWhile isDomChar).length)
      ((rest2.takeWhile isDomChar).length - 1) with _ | k
  · rw [hk] at h
    simp at h
  · rw [hk] at h
    simp only [Option.some.injEq, Prod.mk.injEq] at h
    obtain ⟨hm, -⟩ := h
    obtain ⟨hk1, hkdot, htld⟩ := findK_eq_some hk
    set D := rest2.takeWhile isDomChar with hD
    set A := (D.drop (k+1)).takeWhile Char.isAlpha with hA
    have hdom : ∀ c ∈ D, isDomChar c = true := fun c hc => List.mem_takeWhile_imp hc
    have halpha : ∀ c ∈ A, Char.isAlpha c = true := fun c hc => List.mem_takeWhile_imp hc
    have hA2 : 2 ≤ A.length := by
      simp only [tldOk] at htld
      rw [Bool.and_eq_true] at htld
      have h2 := htld.1
      rw [← hA] at h2
      simpa using h2
    have hkd : k < D.length := by
      by_contra hge
      rw [List.getElem?_eq_none (by omega)] at hkdot
      simp at hkdot
    have htake : D.take (k + 1 + A.length) = D.take k ++ '.' :: A := by
      have h1 : D.take (k + 1) = D.take k ++ ['.'] := by
        rw [List.take_succ, hkdot]
        rfl
      rw [List.take_add, h1, hA, take_length_takeWhile]
      simp
    have hshape : emailShape (L ++ '@' :: (D.take k ++ '.' :: A)) = true := by
      simp only [emailShape]
      rw [takeWhile_append_cons isLocalChar hloc (by decide) _]
      rw [List.drop_left]
      have hdomshape : domShape (D.take k ++ '.' :: A) = true := by
        simp only [domShape]
        have hrev : (D.take k ++ '.' :: A).reverse
            = A.reverse ++ '.' :: (D.take k).reverse := by
          simp
        rw [hrev]
        rw [takeWhile_append_cons Char.isAlpha
          (fun c hc => halpha c (List.mem_reverse.1 hc)) (by decide) _]
        have hlenrev : A.reverse.length = A.length := List.length_reverse A
        rw [hlenrev, ← hlenrev, List.drop_left]
        have hne : ((D.take k).reverse.isEmpty) = false := by
          have hmin : min k D.length = k := Nat.min_eq_left (Nat.le_of_lt hkd)
          have hlen : (D.take k).reverse.length = k := by
            rw [List.length_reverse, List.length_take, hmin]
          rcases hxy : (D.take k).reverse with _ | ⟨x, xs⟩
          · rw [hxy] at hlen
            simp at hlen
            omega
          · rfl
        have hall : ((D.take k).reverse.all isDomChar) = true := by
          rw [List.all_eq_true]
          intro c hc
          exact hdom c (List.take_subset _ _ (List.mem_reverse.1 hc))
        simp [hlenrev, hA2, hne, hall]
      simp only [hdomshape, Bool.and_true]
      simpa using hL
    rw [← hm, htake]
    exact hshape

theorem emailAt_shape {s m r : List Char} (h : emailAt s = some (m, r)) :
    emailShape m = true := by
  simp only [emailAt] at h
  by_cases hLe : (s.takeWhile isLocalChar).isEmpty
  · rw [if_pos hLe] at h
    simp at h
  · rw [if_neg hLe] at h
    by_cases hc : (s.drop (s.takeWhile isLocalChar).length).head? = some '@'
    · rw [if_pos hc] at h
      exact emailAtCore_shape hLe (fun x hx => List.mem_takeWhile_imp hx) h
    · rw [if_neg hc] at h
      simp at h

theorem scanEmails_shape :
    ∀ (fuel : Nat) (prev : Option Char) (s m : List Char),
      m ∈ scanEmails prev s fuel → emailShape m = true
  | 0, _, _, m => by simp [scanEmails]
  | fuel + 1, prev, [], m => by simp [scanEmails]
  | fuel + 1, prev, c :: rest, m => by
    rw [scanEmails]
    by_cases hb : boundaryOk prev c
    · rw [if_pos hb]
      rcases he : emailAt (c :: rest) with _ | ⟨m', r⟩
      · exact scanEmails_shape fuel (some c) rest m
      · intro hm
        rcases List.mem_cons.1 hm with rfl | hm'
        · exact emailAt_shape he
        · exact scanEmails_shape fuel _ r _ hm'
    · rw [if_neg hb]
      exact scanEmails_shape fuel (some c) rest m

theorem isEmailMatch_of_mem_findallEmails {text e : String}
    (h : e ∈ findallEmails text) : isEmailMatch e = true := by
  unfold findallEmails at h
  obtain ⟨l, hl, rfl⟩ := List.mem_map.1 h
  exact scanEmails_shape _ _ _ _ hl

/-! ## Properties of the validated e-mail list -/

theorem pyTake_length_le {α : Type} {k : Int} (hk : 0 ≤ k) (l : List α) :
    ((pyTake k l).length : Int) ≤ k := by
  unfold pyTake
  rw [if_pos hk]
  calc ((l.take k.toNat).length : Int) ≤ (k.toNat : Int) := by
        exact_mod_cast List.length_take_le _ _
    _ = k := Int.toNat_of_nonneg hk

theorem pyTake_sublist {α : Type} (k : Int) (l : List α) : (pyTake k l).Sublist l := by
  unfold pyTake
  split_ifs <;> exact List.take_sublist _ _

theorem validEmailList_length {maxE : Int} (hE : 0 ≤ maxE) (text : String) :
    ((validEmailList maxE text).length : Int) ≤ maxE :=
  pyTake_length_le hE _

theorem validEmailList_entries (maxE : Int) (text : String) :
    ∀ e ∈ validEmailList maxE text, isEmailMatch e = true ∧ denylisted e = false := by
  intro e he
  have he1 : e ∈ List.insertionSort strLe
      ((findallEmails text).dedup.filter fun e => !denylisted e) :=
    (pyTake_sublist _ _).subset he
  rw [List.mem_insertionSort, List.mem_filter] at he1
  exact ⟨isEmailMatch_of_mem_findallEmails (List.mem_dedup.1 he1.1),
    by simpa using he1.2⟩

theorem validEmailList_sorted (maxE : Int) (text : String) :
    (validEmailList maxE text).Pairwise strLe :=
  List.Pairwise.sublist (pyTake_sublist _ _) (List.sorted_insertionSort strLe _)

/-- Every `some` result of the scraper is the `", "`-join of a validated
e-mail list that is non-empty. -/
theorem extract_eq_join {env : Env} {cfg : Config} {url s : String}
    (h : extract_valid_emails_from_website env cfg url = some s) :
    ∃ text : String, validEmailList cfg.max_emails text ≠ [] ∧
      s = String.intercalate ", " (validEmailList cfg.max_emails text) := by
  rcases hsc : env.scrape url with m | ⟨st, text⟩
  · rw [extract_valid_emails_from_website, hsc] at h
    simp at h
  · rw [extract_valid_emails_from_website, hsc] at h
    simp only [] at h
    by_cases h1 : st ≠ 200 ∨ text = ""
    · rw [if_pos h1] at h
      simp at h
    · rw [if_neg h1] at h
      by_cases h2 : validEmailList cfg.max_emails text = []
      · rw [if_pos h2] at h
        simp at h
      · rw [if_neg h2] at h
        exact ⟨text, h2, by simpa using h.symm⟩

/-! ## Per-place and per-page invariants of the loop -/

theorem buildRow_ok {place : PlaceRec} {rating : ℚ} {price_level : Int}
    {place_id : Option String} {details : DetailRec} {website email : Option String}
    {row : Row}
    (h : buildRow place rating price_level place_id details website email = .ok row) :
    row.rating = rating ∧ row.price_level = price_level ∧ row.emails = email ∧
      row.phone_number = pyOrStr details.formatted_phone_number
        details.international_phone_number ∧
      row.website = website ∧ row.opening_hours_weekly = weeklyText details := by
  unfold buildRow at h
  rcases hp : photoRef0 place.photos with m | pr
  · rw [hp] at h
    simp at h
  · rw [hp] at h
    simp only [Except.ok.injEq] at h
    subst h
    exact ⟨rfl, rfl, rfl, rfl, rfl, rfl⟩

/-- What holds of any row the loop appends: it passed the filter, and its
`emails` value is absent or a scraper output. -/
def RowProvenance (cfg : Config) (env : Env) (row : Row) : Prop :=
  cfg.min_rating ≤ row.rating ∧ row.price_level ≤ cfg.max_price_level ∧
    (row.emails = none ∨
      ∃ url, row.emails = extract_valid_emails_from_website env cfg url)

theorem emailFor_provenance (cfg : Config) (env : Env) (website : Option String) :
    emailFor cfg env website = none ∨
      ∃ url, emailFor cfg env website = extract_valid_emails_from_website env cfg url := by
  unfold emailFor
  split_ifs
  · exact .inr ⟨website.getD "", rfl⟩
  · exact .inl rfl

theorem rowFor_provenance {cfg : Config} {env : Env} {place : PlaceRec} {row : Row}
    (h : rowFor cfg env place = .ok row) (hacc : ¬rejected cfg place) :
    RowProvenance cfg env row := by
  unfold rowFor at h
  obtain ⟨hr, hp, he, -, -, -⟩ := buildRow_ok h
  unfold rejected at hacc
  push_neg at hacc
  refine ⟨by rw [hr]; exact hacc.1, by rw [hp]; exact hacc.2, ?_⟩
  rw [he]
  exact emailFor_provenance cfg env _

theorem processPlaces_mem {cfg : Config} {env : Env} :
    ∀ (ps : List PlaceRec) (f : Nat) (acc : List Row) {f' : Nat} {acc' : List Row},
      processPlaces cfg env ps f acc = .ok (f', acc') →
      ∀ row ∈ acc', row ∈ acc ∨ RowProvenance cfg env row
  | [], f, acc => by
    intro h row hrow
    simp only [processPlaces, Except.ok.injEq, Prod.mk.injEq] at h
    obtain ⟨-, rfl⟩ := h
    exact .inl hrow
  | place :: rest, f, acc => by
    intro h row hrow
    rw [processPlaces] at h
    split_ifs at h with hrej hcap
    · exact processPlaces_mem rest f acc h row hrow
    · rcases hbr : rowFor cfg env place with m | newrow
      · simp [hbr] at h
      · simp only [hbr, Except.ok.injEq, Prod.mk.injEq] at h
        obtain ⟨-, rfl⟩ := h
        rcases List.mem_append.1 hrow with hrow | hrow
        · exact .inl hrow
        · rw [List.mem_singleton.1 hrow]
          exact .inr (rowFor_provenance hbr hrej)
    · rcases hbr : rowFor cfg env place with m | newrow
      · simp [hbr] at h
      · simp only [hbr] at h
        rcases processPlaces_mem rest (f + 1) (acc ++ [newrow]) h row hrow with hmem | hprov
        · rcases List.mem_append.1 hmem with hmem | hmem
          · exact .inl hmem
          · rw [List.mem_singleton.1 hmem]
            exact .inr (rowFor_provenance hbr hrej)
        · exact .inr hprov

theorem processPlaces_count {cfg : Config} {env : Env} :
    ∀ (ps : List PlaceRec) (f : Nat) (acc : List Row) {f' : Nat} {acc' : List Row},
      processPlaces cfg env ps f acc = .ok (f', acc') →
      acc'.length + f = acc.length + f' ∧ f ≤ f' ∧
        ((f : Int) < max_fetch cfg → (f' : Int) ≤ max_fetch cfg)
  | [], f, acc => by
    intro h
    simp only [processPlaces, Except.ok.injEq, Prod.mk.injEq] at h
    obtain ⟨rfl, rfl⟩ := h
    exact ⟨rfl, le_refl f, fun hf => le_of_lt hf⟩
  | place :: rest, f, acc => by
    intro h
    rw [processPlaces] at h
    split_ifs at h with hrej hcap
    · exact processPlaces_count rest f acc h
    · rcases hbr : rowFor cfg env place with m | newrow
      · simp [hbr] at h
      · simp only [hbr, Except.ok.injEq, Prod.mk.injEq] at h
        obtain ⟨rfl, rfl⟩ := h
        refine ⟨by simp; omega, by omega, fun hf => ?_⟩
        push_cast
        push_cast at hcap
        omega
    · rcases hbr : rowFor cfg env place with m | newrow
      · simp [hbr] at h
      · simp only [hbr] at h
        obtain ⟨h1, h2, h3⟩ := processPlaces_count rest (f + 1) (acc ++ [newrow]) h
        push_neg at hcap
        refine ⟨by simp at h1 ⊢; omega, by omega, fun hf => h3 hcap⟩

/-! ## Invariants of the pagination loop -/

theorem searchLoop_rows {cfg : Config} {env : Env} :
    ∀ (fuel i : Nat) (req : TSReq) (slept : Option Nat) (f : Nat) (acc : List Row)
      {rows : List Row} {tr : List PageFetch},
      searchLoop cfg env fuel i req slept f acc = (.done rows, tr) →
      ∀ row ∈ rows, row ∈ acc ∨ RowProvenance cfg env row
  | 0, i, req, slept, f, acc => by
    intro h row hrow
    simp only [searchLoop, Prod.mk.injEq] at h
    exact absurd h.1 (by simp)
  | fuel + 1, i, req, slept, f, acc => by
    intro h row hrow
    rw [searchLoop] at h
    split_ifs at h with hcond
    · rcases hts : env.ts i req with m | ⟨results, token⟩
      · simp [hts] at h
      · simp only [hts] at h
        split_ifs at h with hres
        · simp only [Prod.mk.injEq, LoopRes.done.injEq] at h
          obtain ⟨rfl, -⟩ := h
          exact .inl hrow
        · rcases hpp : processPlaces cfg env results f acc with m | ⟨f', acc'⟩
          · simp [hpp] at h
          · simp only [hpp] at h
            have fromAcc : ∀ x ∈ acc', x ∈ acc ∨ RowProvenance cfg env x :=
              processPlaces_mem results f acc hpp
            split at h
            · simp only [Prod.mk.injEq, LoopRes.done.injEq] at h
              obtain ⟨rfl, -⟩ := h
              exact fromAcc row hrow
            · rename_i t
              split_ifs at h with hstop
              · simp only [Prod.mk.injEq, LoopRes.done.injEq] at h
                obtain ⟨rfl, -⟩ := h
                exact fromAcc row hrow
              · rcases hsl : searchLoop cfg env fuel (i + 1) (.page t cfg.api_key)
                    (some 2) f' acc' with ⟨res2, tr2⟩
                rw [hsl] at h
                simp only [Prod.mk.injEq] at h
                obtain ⟨hres2, -⟩ := h
                rw [hres2] at hsl
                rcases searchLoop_rows fuel (i + 1) (.page t cfg.api_key)
                    (some 2) f' acc' hsl row hrow with hmem | hprov
                · exact fromAcc row hmem
                · exact .inr hprov
    · simp only [Prod.mk.injEq, LoopRes.done.injEq] at h
      obtain ⟨rfl, -⟩ := h
      exact .inl hrow

theorem searchLoop_count {cfg : Config} {env : Env} :
    ∀ (fuel i : Nat) (req : TSReq) (slept : Option Nat) (f : Nat) (acc : List Row)
      {rows : List Row} {tr : List PageFetch},
      f = acc.length → (f = 0 ∨ (f : Int) < max_fetch cfg) →
      searchLoop cfg env fuel i req slept f acc = (.done rows, tr) →
      (rows.length : Int) ≤ max (max_fetch cfg) 0
  | 0, i, req, slept, f, acc => by
    intro hlen hlt h
    simp only [searchLoop, Prod.mk.injEq] at h
    exact absurd h.1 (by simp)
  | fuel + 1, i, req, slept, f, acc => by
    intro hlen hlt h
    rw [searchLoop] at h
    split_ifs at h with hcond
    · rcases hts : env.ts i req with m | ⟨results, token⟩
      · simp [hts] at h
      · simp only [hts] at h
        split_ifs at h with hres
        · simp only [Prod.mk.injEq, LoopRes.done.injEq] at h
          obtain ⟨rfl, -⟩ := h
          rw [← hlen]
          calc (f : Int) ≤ max_fetch cfg := le_of_lt hcond
            _ ≤ max (max_fetch cfg) 0 := le_max_left _ _
        · rcases hpp : processPlaces cfg env results f acc with m | ⟨f', acc'⟩
          · simp [hpp] at h
          · simp only [hpp] at h
            obtain ⟨hc1, -, hc3⟩ := processPlaces_count results f acc hpp
            have hacc' : acc'.length = f' := by omega
            have hf'le : (f' : Int) ≤ max_fetch cfg := hc3 hcond
            split at h
            · simp only [Prod.mk.injEq, LoopRes.done.injEq] at h
              obtain ⟨rfl, -⟩ := h
              rw [hacc']
              exact le_trans hf'le (le_max_left _ _)
            · rename_i t
              split_ifs at h with hstop
              · simp only [Prod.mk.injEq, LoopRes.done.injEq] at h
                obtain ⟨rfl, -⟩ := h
                rw [hacc']
                exact le_trans hf'le (le_max_left _ _)
              · rcases hsl : searchLoop cfg env fuel (i + 1) (.page t cfg.api_key)
                    (some 2) f' acc' with ⟨res2, tr2⟩
                rw [hsl] at h
                simp only [Prod.mk.injEq] at h
                obtain ⟨hres2, -⟩ := h
                rw [hres2] at hsl
                push_neg at hstop
                exact searchLoop_count fuel (i + 1) (.page t cfg.api_key)
                  (some 2) f' acc' hacc'.symm (.inr hstop.2) hsl
    · simp only [Prod.mk.injEq, LoopRes.done.injEq] at h
      obtain ⟨rfl, -⟩ := h
      rw [← hlen]
      rcases hlt with rfl | hlt
      · simp
      · exact absurd hlt hcond

/-- The first fetch the loop performs from a given state carries exactly the
pending request parameters and the sleep just performed. -/
theorem searchLoop_head {cfg : Config} {env : Env} {fuel i : Nat} {req : TSReq}
    {slept : Option Nat} {f : Nat} {acc : List Row} {pf : PageFetch}
    {rest : List PageFetch}
    (h : (searchLoop cfg env fuel i req slept f acc).2 = pf :: rest) :
    pf = ⟨req, env.ts i req, slept⟩ := by
  cases fuel with
  | zero => simp [searchLoop] at h
  | succ fuel =>
    rw [searchLoop] at h
    split_ifs at h with hcond
    · rcases hts : env.ts i req with m | ⟨results, _ | t⟩
      · simp only [hts, List.cons.injEq] at h
        exact h.1.symm
      · simp only [hts] at h
        split_ifs at h with hres
        · simp only [List.cons.injEq] at h
          exact h.1.symm
        · rcases hpp : processPlaces cfg env results f acc with m | ⟨f', acc'⟩
          · simp only [hpp, List.cons.injEq] at h
            exact h.1.symm
          · simp only [hpp, List.cons.injEq] at h
            exact h.1.symm
      · simp only [hts] at h
        split_ifs at h with hres
        · simp only [List.cons.injEq] at h
          exact h.1.symm
        · rcases hpp : processPlaces cfg env results f acc with m | ⟨f', acc'⟩
          · simp only [hpp, List.cons.injEq] at h
            exact h.1.symm
          · simp only [hpp] at h
            split_ifs at h with hstop
            · simp only [List.cons.injEq] at h
              exact h.1.symm
            · simp only [List.cons.injEq] at h
              exact h.1.symm

/-- Whenever a fetched page carries a live next-page token, any follow-up
request that occurs uses exactly that token (with the configured key) and
was immediately preceded by the 2-second sleep. -/
def pagRel (key : String) (pf pg : PageFetch) : Prop :=
  ∀ t, liveToken pf.outcome = some t →
    pg.req = TSReq.page t key ∧ pg.sleptBefore = some 2

/-- A failing outcome of the details request: `requests.get` raised, the
status is a client or server error (what `raise_for_status` raises for), or
the body is not JSON. -/
def DetFailure : DetOutcome → Prop
  | .raise _ => True
  | .resp st body => (400 ≤ st ∧ st < 600) ∨ ∃ m, body = DetBody.malformed m

/-! ## Concrete fixtures used by witnesses and counterexamples -/

def placeA : PlaceRec :=
  { name := some "Cafe A", formatted_address := some "1 Road", vicinity := none
    rating := some 4, user_ratings_total := some 10, price_level := some 1
    business_status := some "OPERATIONAL", opening_hours := some ⟨some true⟩
    types := ["cafe"], geometry := some ⟨some ⟨some 1, some 2⟩⟩
    photos := none, place_id := some "pidA", icon := none, plus_code := none }

/-- A sparse place record: every optional field absent. -/
def placeB : PlaceRec :=
  { name := some "B", formatted_address := none, vicinity := none
    rating := none, user_ratings_total := none, price_level := none
    business_status := none, opening_hours := none
    types := [], geometry := none
    photos := none, place_id := none, icon := none, plus_code := none }

/-- A place whose `photos` key is present but holds an empty list. -/
def placeBad : PlaceRec :=
  { name := some "Bad", formatted_address := none, vicinity := none
    rating := some 5, user_ratings_total := none, price_level := none
    business_status := none, opening_hours := none
    types := [], geometry := none
    photos := some [], place_id := some "pidB", icon := none, plus_code := none }

def cfgBase : Config :=
  { query := "q", max_results := 20, min_rating := 0, max_price_level := 4
    scrape_emails := false, max_emails := 3, api_key := "K" }

def cfgC2 : Config := { cfgBase with max_results := 0 }

def cfg8 : Config := { cfgBase with scrape_emails := true }

def cfgC4w : Config := { cfgBase with scrape_emails := true }

def cfgC4 : Config := { cfgBase with scrape_emails := true, max_emails := -1 }

def envBase : Env :=
  { ts := fun i _ => if i = 0 then .ok [placeA] none else .fail "no page"
    det := fun _ => .raise "net down"
    scrape := fun _ => .raise "no web" }

def envC3 : Env := { envBase with ts := fun _ _ => .fail "boom" }

def envC5 : Env :=
  { envBase with
    ts := fun i _ => if i = 0 then .ok [placeB] (some "T1") else .ok [placeB] none }

def envC6 : Env := { envBase with ts := fun _ _ => .ok [] none }

def detC7 : DetailRec := ⟨some "", some "+1 555", none, none⟩

def envC7 : Env := { envBase with det := fun _ => .resp 200 (.json (some detC7)) }

def detC8 : DetailRec := ⟨none, none, some "http://w", none⟩

def envC8 : Env := { envBase with det := fun _ => .resp 201 (.json (some detC8)) }

def envC9 : Env := { envBase with scrape := fun _ => .resp 200 "a@b.com A@b.com" }

def envC10 : Env :=
  { envBase with ts := fun i _ => if i = 0 then .ok [placeA, placeBad] none else .fail "no page" }

/-- A one-place environment whose details outcome is the parameter. -/
def env8 (o : DetOutcome) : Env := { envBase with det := fun _ => o }

def detW : DetailRec := ⟨none, none, some "http://w", none⟩

def envC4w : Env :=
  { envBase with det := fun _ => .resp 200 (.json (some detW))
                 scrape := fun _ => .resp 200 "a@b.com A@b.com" }

def detPhone : DetailRec := ⟨some "+1 111", some "+1 222", none, none⟩

/-- The row the fixture place produces when the details request fails. -/
def rowA : Row :=
  { name := some "Cafe A", address := some "1 Road", vicinity := none
    rating := 4, user_ratings_total := some 10, price_level := 1
    business_status := some "OPERATIONAL", open_now := some true
    opening_hours_weekly := "", types := "cafe"
    latitude := some 1, longitude := some 2
    photo_reference := none, place_id := some "pidA", icon := none
    plus_code := none, phone_number := none, website := none, emails := none }

def rowPhone : Row := { rowA with phone_number := some "+1 111" }

def rowC4w : Row :=
  { rowA with website := some "http://w", emails := some "A@b.com, a@b.com" }

theorem searchLoop_chain {cfg : Config} {env : Env} :
    ∀ (fuel i : Nat) (req : TSReq) (slept : Option Nat) (f : Nat) (acc : List Row),
      List.Chain' (pagRel cfg.api_key) (searchLoop cfg env fuel i req slept f acc).2
  | 0, i, req, slept, f, acc => by
    simp [searchLoop]
  | fuel + 1, i, req, slept, f, acc => by
    rw [searchLoop]
    split_ifs with hcond
    · rcases hts : env.ts i req with m | ⟨results, _ | t⟩
      · simp [hts]
      · simp only [hts]
        split_ifs with hres
        · simp
        · rcases hpp : processPlaces cfg env results f acc with m | ⟨f', acc'⟩
          · simp [hpp]
          · simp [hpp]
      · simp only [hts]
        split_ifs with hres
        · simp
        · rcases hpp : processPlaces cfg env results f acc with m | ⟨f', acc'⟩
          · simp [hpp]
          · simp only [hpp]
            split_ifs with hstop
            · simp
            · refine List.chain'_cons'.2 ⟨?_, ?_⟩
              · intro y hy
                rcases hl : (searchLoop cfg env fuel (i + 1) (.page t cfg.api_key)
                    (some 2) f' acc').2 with _ | ⟨pf2, rest2⟩
                · rw [hl] at hy
                  simp at hy
                · rw [hl] at hy
                  simp only [List.head?_cons, Option.mem_def, Option.some.injEq] at hy
                  rw [← hy, searchLoop_head hl]
                  intro t' hlive
                  have ht : ¬t = "" := fun he => hstop (Or.inl he)
                  simp only [liveToken, if_neg ht, Option.some.injEq] at hlive
                  rw [← hlive]
                  exact ⟨rfl, rfl⟩
              · exact searchLoop_chain fuel (i + 1) (.page t cfg.api_key) (some 2) f' acc'
    · simp

/-- Every row of the output table was appended by the loop, so it passed the
filter and its `emails` value is a scraper output or absent. -/
theorem rowProvenance_of_mem {cfg : Config} {env : Env} {fuel : Nat} {row : Row}
    (hrow : row ∈ tableRows (search_results cfg env fuel).frame) :
    RowProvenance cfg env row := by
  rcases hsl : searchLoop cfg env fuel 0 (.initial cfg.query cfg.api_key) none 0 []
    with ⟨res, tr⟩
  cases res with
  | raised m =>
    simp only [search_results, hsl] at hrow
    simp [tableRows] at hrow
  | fuelOut =>
    simp only [search_results, hsl] at hrow
    simp [tableRows] at hrow
  | done rows =>
    simp only [search_results, hsl] at hrow
    split_ifs at hrow with hempty
    · simp [tableRows] at hrow
    · simp only [tableRows] at hrow
      rcases searchLoop_rows fuel 0 (.initial cfg.query cfg.api_key) none 0 [] hsl
          row hrow with hmem | hprov
      · simp at hmem
      · exact hprov

/-! ## The claims -/

/-- C1: every row emitted in the output table satisfies the filter: its
rating (defaulting to 0 when the upstream record lacks one) is at least
`min_rating`, and its price level (defaulting to 0 when absent) is at most
`max_price_level`; a place violating either bound produces no row. -/
theorem claim1_rows_satisfy_filter (cfg : Config) (env : Env) (fuel : Nat)
    (row : Row) (hrow : row ∈ tableRows (search_results cfg env fuel).frame) :
    cfg.min_rating ≤ row.rating ∧ row.price_level ≤ cfg.max_price_level :=
  ⟨(rowProvenance_of_mem hrow).1, (rowProvenance_of_mem hrow).2.1⟩

theorem claim1_rows_satisfy_filter_witness :
    cfgBase.min_rating ≤ rowA.rating ∧ rowA.price_level ≤ cfgBase.max_price_level :=
  claim1_rows_satisfy_filter cfgBase envBase 1 rowA (by decide)

/-- C2 (amended): the number of result rows is at most
`max (min (max_results′, 60)) 0` where `max_results′` is `max_results`
except that a falsy (zero) `max_results` is replaced by the default 20
(line 127, `self.max_results or 20`); the bound `min (max_results, 60)` of
the claim fails at `max_results = 0`, where up to 20 rows are produced. -/
theorem claim2_row_count_bound (cfg : Config) (env : Env) (fuel : Nat) :
    ((tableRows (search_results cfg env fuel).frame).length : Int)
      ≤ max (max_fetch cfg) 0 := by
  rcases hsl : searchLoop cfg env fuel 0 (.initial cfg.query cfg.api_key) none 0 []
    with ⟨res, tr⟩
  cases res with
  | raised m =>
    simp only [search_results, hsl]
    simp [tableRows]
  | fuelOut =>
    simp only [search_results, hsl]
    simp [tableRows]
  | done rows =>
    simp only [search_results, hsl]
    split_ifs with hempty
    · simp [tableRows]
    · simp only [tableRows]
      exact searchLoop_count fuel 0 (.initial cfg.query cfg.api_key) none 0 []
        rfl (.inl rfl) hsl

/-- C2, counterexample: with `max_results = 0` the code fetches the default
20, so one accepting place yields one row although `min (max_results, 60) = 0`. -/
theorem claim2_max_results_zero_cex :
    ((tableRows (search_results cfgC2 envBase 1).frame).length : Int) = 1 ∧
      ¬ ((1 : Int) ≤ min cfgC2.max_results 60) ∧ cfgC2.max_results = 0 :=
  ⟨by decide, by decide, rfl⟩

/-- C3: `search_results` never raises: whatever exception the loop raises —
in particular an HTTP failure on the primary text-search request — is
caught at the top, the returned frame is the one-row error table holding
the exception's message, and `self.status` records `"Error: " ++ msg`. -/
theorem claim3_errors_caught :
    (∀ (cfg : Config) (env : Env) (fuel : Nat) (m : String) (tr : List PageFetch),
        searchLoop cfg env fuel 0 (.initial cfg.query cfg.api_key) none 0 []
          = (.raised m, tr) →
        search_results cfg env fuel
          = ⟨.error [m], some ("Error: " ++ m), tr⟩ ∧
          frameRowCount (Frame.error [m]) = 1) ∧
    (∀ (cfg : Config) (env : Env) (fuel : Nat) (m : String),
        env.ts 0 (.initial cfg.query cfg.api_key) = .fail m → 0 < fuel →
        (0 : Int) < max_fetch cfg →
        searchLoop cfg env fuel 0 (.initial cfg.query cfg.api_key) none 0 []
          = (.raised m, [⟨.initial cfg.query cfg.api_key, .fail m, none⟩])) := by
  constructor
  · intro cfg env fuel m tr hsl
    exact ⟨by simp only [search_results, hsl], rfl⟩
  · intro cfg env fuel m hts hfuel hM
    cases fuel with
    | zero => exact absurd hfuel (lt_irrefl 0)
    | succ fuel =>
      rw [searchLoop]
      rw [if_pos (by exact_mod_cast hM)]
      simp [hts]

theorem claim3_errors_caught_witness :
    search_results cfgBase envC3 1
      = ⟨.error ["boom"], some ("Error: " ++ "boom"),
          [⟨.initial "q" "K", .fail "boom", none⟩]⟩ :=
  (claim3_errors_caught.1 cfgBase envC3 1 "boom" _
    (claim3_errors_caught.2 cfgBase envC3 1 "boom" rfl (by decide) (by decide))).1

/-- C5: pagination protocol. Whenever a fetched page's outcome carries a
live next-page cursor, the follow-up request (when one occurs) uses exactly
that cursor together with the configured key, and the 2-second sleep is
performed immediately before issuing it — so the wait elapses between
receiving the cursor and the follow-up request. -/
theorem claim5_pagination_protocol (cfg : Config) (env : Env) (fuel : Nat) :
    List.Chain' (pagRel cfg.api_key) (search_results cfg env fuel).fetches := by
  rcases hsl : searchLoop cfg env fuel 0 (.initial cfg.query cfg.api_key) none 0 []
    with ⟨res, tr⟩
  have h := @searchLoop_chain cfg env fuel 0
    (.initial cfg.query cfg.api_key) none 0 []
  rw [hsl] at h
  have hfetch : (search_results cfg env fuel).fetches = tr := by
    cases res with
    | raised m => simp [search_results, hsl]
    | fuelOut => simp [search_results, hsl]
    | done rows =>
      simp only [search_results, hsl]
      split_ifs <;> rfl
  rw [hfetch]
  simpa using h

theorem claim5_pagination_protocol_witness :
    (search_results cfgBase envC5 2).fetches =
      [⟨.initial "q" "K", .ok [placeB] (some "T1"), none⟩,
       ⟨.page "T1" "K", .ok [placeB] none, some 2⟩] ∧
      List.Chain' (pagRel cfgBase.api_key) (search_results cfgBase envC5 2).fetches :=
  ⟨by decide, claim5_pagination_protocol cfgBase envC5 2⟩

/-- C6: when the first page's result list is empty, the output is the
one-row "No results found." table and the status records the same
message. -/
theorem claim6_no_results_message (cfg : Config) (env : Env) (fuel : Nat)
    (tok : Option String)
    (hts : env.ts 0 (.initial cfg.query cfg.api_key) = .ok [] tok)
    (hfuel : 0 < fuel) (hM : (0 : Int) < max_fetch cfg) :
    (search_results cfg env fuel).frame = .message ["No results found."] ∧
      (search_results cfg env fuel).status = some "No results found." ∧
      frameRowCount (search_results cfg env fuel).frame = 1 := by
  cases fuel with
  | zero => exact absurd hfuel (lt_irrefl 0)
  | succ fuel =>
    have hsl : searchLoop cfg env (fuel + 1) 0 (.initial cfg.query cfg.api_key)
        none 0 [] = (.done [], [⟨.initial cfg.query cfg.api_key, .ok [] tok, none⟩]) := by
      rw [searchLoop]
      rw [if_pos (by exact_mod_cast hM)]
      simp [hts]
    refine ⟨?_, ?_, ?_⟩ <;> simp [search_results, hsl, frameRowCount]

theorem claim6_no_results_message_witness :
    (search_results cfgBase envC6 1).frame = .message ["No results found."] ∧
      (search_results cfgBase envC6 1).status = some "No results found." ∧
      frameRowCount (search_results cfgBase envC6 1).frame = 1 :=
  claim6_no_results_message cfgBase envC6 1 none rfl (by decide) (by decide)

/-- C7 (amended): the row's phone number equals the detail record's
formatted national number when that value is present **and non-empty**
(Python `or` tests truthiness, not presence); when the formatted value is
absent or the empty string, the field equals whatever the international
lookup returns (absent when that key is absent). -/
theorem claim7_phone_truthy_preference (place : PlaceRec) (rating : ℚ)
    (price_level : Int) (place_id : Option String) (details : DetailRec)
    (website email : Option String) (row : Row)
    (h : buildRow place rating price_level place_id details website email = .ok row) :
    (∀ s, details.formatted_phone_number = some s → s ≠ "" →
        row.phone_number = some s) ∧
    ((details.formatted_phone_number = none ∨
        details.formatted_phone_number = some "") →
      row.phone_number = details.international_phone_number) := by
  obtain ⟨-, -, -, hph, -, -⟩ := buildRow_ok h
  constructor
  · intro s hs hne
    rw [hph, hs]
    simp [pyOrStr, hne]
  · intro hcase
    rcases hcase with hnone | hempty
    · rw [hph, hnone]
      rfl
    · rw [hph, hempty]
      simp [pyOrStr]

theorem claim7_phone_truthy_preference_witness :
    (∀ s, detPhone.formatted_phone_number = some s → s ≠ "" →
        rowPhone.phone_number = some s) ∧
    ((detPhone.formatted_phone_number = none ∨
        detPhone.formatted_phone_number = some "") →
      rowPhone.phone_number = detPhone.international_phone_number) :=
  claim7_phone_truthy_preference placeA 4 1 (some "pidA") detPhone none none
    rowPhone rfl

/-- C7, counterexample: a present but empty formatted number is falsy, so
the code falls back to the international number although the claim demands
the (empty) formatted value. -/
theorem claim7_empty_formatted_cex :
    (get_place_details envC7 (some "pidA")).1.formatted_phone_number = some "" ∧
      Option.map Row.phone_number
        (tableRows (search_results cfgBase envC7 1).frame).head?
        = some (some "+1 555") ∧
      some "+1 555" ≠ (some "" : Option String) :=
  ⟨rfl, by decide, by decide⟩

/-- C8 (amended): on a network error, a 4xx/5xx status (what
`raise_for_status` raises for — a non-200 success status such as 201 is
*not* treated as a failure), or a malformed body, `get_place_details`
returns the empty record and records a diagnostic line; and a detail
failure never aborts the search — the affected place still produces its
row, with empty detail fields. -/
theorem claim8_detail_failure_spec :
    (∀ (env : Env) (pid : Option String), DetFailure (env.det pid) →
        (get_place_details env pid).1 = emptyDetail ∧
          (get_place_details env pid).2 ≠ []) ∧
    (∀ o : DetOutcome, DetFailure o →
        tableRows (search_results cfg8 (env8 o) 1).frame = [rowA] ∧
          rowA.phone_number = none ∧ rowA.website = none ∧
          rowA.opening_hours_weekly = "" ∧ rowA.emails = none) := by
  have part1 : ∀ (env : Env) (pid : Option String), DetFailure (env.det pid) →
      (get_place_details env pid).1 = emptyDetail ∧
        (get_place_details env pid).2 ≠ [] := by
    intro env pid hfail
    rcases hdo : env.det pid with m | ⟨st, body⟩
    · constructor <;> simp [get_place_details, hdo]
    · rw [hdo] at hfail
      simp only [DetFailure] at hfail
      by_cases hst : 400 ≤ st ∧ st < 600
      · constructor <;> simp [get_place_details, hdo, hst]
      · rcases hfail with hrange | ⟨m, rfl⟩
        · exact absurd hrange hst
        · constructor <;> simp [get_place_details, hdo, hst]
  refine ⟨part1, ?_⟩
  intro o ho
  have hdet : (get_place_details (env8 o) (some "pidA")).1 = emptyDetail :=
    (part1 (env8 o) (some "pidA") ho).1
  have hrowf : rowFor cfg8 (env8 o) placeA = .ok rowA := by
    simp only [rowFor]
    rw [show placeA.place_id = some "pidA" from rfl, hdet]
    rfl
  have hpp : processPlaces cfg8 (env8 o) [placeA] 0 [] = .ok (1, [rowA]) := by
    rw [processPlaces]
    rw [if_neg (by decide : ¬rejected cfg8 placeA)]
    simp only [hrowf]
    split_ifs with hcap
    · exact absurd hcap (by decide)
    · rw [processPlaces]
      rfl
  have hts : (env8 o).ts 0 (.initial cfg8.query cfg8.api_key) = .ok [placeA] none :=
    rfl
  have hsl : searchLoop cfg8 (env8 o) 1 0 (.initial cfg8.query cfg8.api_key)
      none 0 [] =
      (.done [rowA], [⟨.initial cfg8.query cfg8.api_key, .ok [placeA] none, none⟩]) := by
    rw [searchLoop]
    rw [if_pos (by decide : ((0 : Nat) : Int) < max_fetch cfg8)]
    simp only [hts, hpp]
    rw [if_neg (by decide : ¬([placeA] = ([] : List PlaceRec)))]
  refine ⟨?_, rfl, rfl, rfl, rfl⟩
  simp [search_results, hsl, tableRows]

theorem claim8_detail_failure_spec_witness :
    ((get_place_details envBase (some "pidA")).1 = emptyDetail ∧
        (get_place_details envBase (some "pidA")).2 ≠ []) ∧
      (tableRows (search_results cfg8 (env8 (.raise "net down")) 1).frame = [rowA] ∧
        rowA.phone_number = none ∧ rowA.website = none ∧
        rowA.opening_hours_weekly = "" ∧ rowA.emails = none) :=
  ⟨claim8_detail_failure_spec.1 envBase (some "pidA") trivial,
   claim8_detail_failure_spec.2 (.raise "net down") trivial⟩

/-- C8, counterexample: a non-200 but non-error status (201) with a valid
body is *not* a failure for the code — the parsed result is returned
unchanged and nothing is logged, contradicting the claim's "non-200". -/
theorem claim8_non200_success_cex :
    get_place_details envC8 (some "pidA") = (detC8, []) ∧
      detC8 ≠ emptyDetail ∧ (201 : Nat) ≠ 200 :=
  ⟨rfl, by decide, by decide⟩

/-- C9: e-mail de-duplication is case-sensitive.  For the page text
`"a@b.com A@b.com"` the scanner finds the two case variants of the same
address, `set`-based de-duplication keeps both, and both appear as
separate entries of the scraper's output (sorted, `", "`-joined). -/
theorem claim9_case_sensitive_dedup :
    findallEmails "a@b.com A@b.com" = ["a@b.com", "A@b.com"] ∧
      validEmailList 3 "a@b.com A@b.com" = ["A@b.com", "a@b.com"] ∧
      extract_valid_emails_from_website envC9 cfgBase "http://w"
        = some "A@b.com, a@b.com" ∧
      "A@b.com" ≠ "a@b.com" ∧
      "A@b.com".data.map Char.toLower = "a@b.com".data.map Char.toLower :=
  ⟨by decide, by decide, by decide, by decide, by decide⟩

/-- C10: a place record whose `photos` key holds an empty list makes the
row mapping index `[{}][0]` raise `IndexError`, and the top-level handler
replaces the whole search — including the row already accumulated for the
first place — by the single-row error table. -/
theorem claim10_empty_photos_aborts :
    (search_results cfgBase envC10 1).frame = .error ["list index out of range"] ∧
      (search_results cfgBase envC10 1).status
        = some "Error: list index out of range" ∧
      frameRowCount (search_results cfgBase envC10 1).frame = 1 ∧
      tableRows (search_results cfgBase envC10 1).frame = [] ∧
      (search_results cfgBase envBase 1).frame = .table [rowA] :=
  ⟨by decide, by decide, by decide, by decide, by decide⟩

/-- C4 (amended): when `max_emails ≥ 0`, a present `emails` field is the
`", "`-join of at most `max_emails` entries, each matching the e-mail
pattern, none containing a denylisted substring case-insensitively, in
ascending lexicographic order.  (For negative `max_emails`, Python's slice
`[: max_emails]` drops `|max_emails|` entries from the end instead, so the
count bound of the claim fails.) -/
theorem claim4_emails_field_spec (cfg : Config) (env : Env) (fuel : Nat)
    (hE : 0 ≤ cfg.max_emails) (row : Row)
    (hrow : row ∈ tableRows (search_results cfg env fuel).frame)
    (s : String) (hs : row.emails = some s) :
    ∃ entries : List String,
      s = String.intercalate ", " entries ∧
      (entries.length : Int) ≤ cfg.max_emails ∧
      (∀ e ∈ entries, isEmailMatch e = true ∧ denylisted e = false) ∧
      entries.Pairwise strLe := by
  obtain ⟨-, -, hemail⟩ := rowProvenance_of_mem hrow
  rcases hemail with hnone | ⟨url, hurl⟩
  · rw [hs] at hnone
    exact absurd hnone (by simp)
  · rw [hs] at hurl
    obtain ⟨text, -, hjoin⟩ := extract_eq_join hurl.symm
    exact ⟨validEmailList cfg.max_emails text, hjoin,
      validEmailList_length hE text, validEmailList_entries _ _,
      validEmailList_sorted _ _⟩

theorem claim4_emails_field_spec_witness :
    ∃ entries : List String,
      "A@b.com, a@b.com" = String.intercalate ", " entries ∧
      (entries.length : Int) ≤ cfgC4w.max_emails ∧
      (∀ e ∈ entries, isEmailMatch e = true ∧ denylisted e = false) ∧
      entries.Pairwise strLe :=
  claim4_emails_field_spec cfgC4w envC4w 1 (by decide) rowC4w (by decide) _ rfl

/-- C4, counterexample: with `max_emails = -1` the slice keeps all but the
last sorted entry, so a row's `emails` field is present with one entry,
violating "at most `max_emails` (= -1) entries". -/
theorem claim4_negative_cap_cex :
    Option.map Row.emails (tableRows (search_results cfgC4 envC4w 1).frame).head?
      = some (some "A@b.com") ∧
      "A@b.com" = String.intercalate ", " ["A@b.com"] ∧
      ¬ (((["A@b.com"] : List String).length : Int) ≤ cfgC4.max_emails) ∧
      cfgC4.max_emails = -1 :=
  ⟨by decide, by decide, by decide, rfl⟩

end GPlaces
